import Mathlib

/-!
A shallow embedding of the core of the zkits-runner Go library
(package `runner`), together with proofs of its ordering, idempotence
and error-aggregation contracts.

The embedding follows the Go sources:
  * `caller.go`   — `SafeCall`, `PanicError`, `IsPanicError`;
  * `errors.go`   — the `Errors` aggregate (`Add`, `Error`, `First`,
                    `Last`, `Len`, `All`);
  * `runner.go`   — the built-in `runner` (`Run`, `Exit`, `Exited`,
                    `WaitBy`);
  * `wait_queue.go` — the built-in `waitQueue` (`NewWaiter`,
                    `NewReceiptableWaiter`, `Len`, `Release`, `ReleaseAll`);
  * `broadcaster.go` — the built-in `broadcaster` (`NewWaiter`,
                    `Broadcast`, `Close`, and its private `close`);
  * `waiter.go`   — the duplex waiter handshake (`Close`, `Done`,
                    `WaitDone`, `CloseAndWaitDone`), modelled as a small
                    labelled transition system.

Go `error` values are modelled by `Option GoErr` (with `none` for `nil`).
Side effects are made explicit: methods return their new state together
with a trace of the externally observable calls they performed
(`Shutdown` invocations, channel closes, handshakes).
-/

namespace ZkitsRunner

/-- Payload captured by `recover` inside a `PanicError` (`caller.go`).
The Go payload is an `interface{}` inspected by `PanicError.Error` with a
type switch (string / error / fmt.Stringer / anything else); each variant
carries the string that the corresponding switch arm would render. -/
inductive PanicValue where
  | str (s : String)
  | err (msg : String)
  | stringer (s : String)
  | other (repr : String)
deriving DecidableEq, Repr

/-- A non-nil Go `error` value as it occurs in this library: a plain error
(such as one made by `errors.New`), a `*PanicError` (`caller.go`), or a
`*Errors` aggregate (`errors.go`, whose `errs` field is the list). -/
inductive GoErr where
  | base (msg : String)
  | panicked (v : PanicValue)
  | errors (errs : List GoErr)
deriving Repr

mutual

/-- Boolean structural equality on `GoErr` (needed because Lean cannot
derive `DecidableEq` for this nested inductive). -/
def GoErr.beq : GoErr → GoErr → Bool
  | .base s, .base t => s == t
  | .panicked v, .panicked w => v == w
  | .errors l, .errors m => GoErr.beqList l m
  | _, _ => false

/-- Pointwise `GoErr.beq` on lists. -/
def GoErr.beqList : List GoErr → List GoErr → Bool
  | [], [] => true
  | a :: l, b :: m => GoErr.beq a b && GoErr.beqList l m
  | _, _ => false

end

mutual

theorem GoErr.beq_iff : ∀ a b : GoErr, GoErr.beq a b = true ↔ a = b
  | .base _, .base _ => by simp [GoErr.beq]
  | .base _, .panicked _ => by simp [GoErr.beq]
  | .base _, .errors _ => by simp [GoErr.beq]
  | .panicked _, .base _ => by simp [GoErr.beq]
  | .panicked _, .panicked _ => by simp [GoErr.beq]
  | .panicked _, .errors _ => by simp [GoErr.beq]
  | .errors _, .base _ => by simp [GoErr.beq]
  | .errors _, .panicked _ => by simp [GoErr.beq]
  | .errors l, .errors m => by
      simp only [GoErr.beq, GoErr.errors.injEq]
      exact GoErr.beqList_iff l m

theorem GoErr.beqList_iff : ∀ l m : List GoErr, GoErr.beqList l m = true ↔ l = m
  | [], [] => by simp [GoErr.beqList]
  | [], _ :: _ => by simp [GoErr.beqList]
  | _ :: _, [] => by simp [GoErr.beqList]
  | a :: l, b :: m => by
      simp only [GoErr.beqList, Bool.and_eq_true, List.cons.injEq]
      exact and_congr (GoErr.beq_iff a b) (GoErr.beqList_iff l m)

end

instance : DecidableEq GoErr := fun a b => decidable_of_iff _ (GoErr.beq_iff a b)

mutual

/-- Message of a Go error value. For `.base` it is the stored message; for
`.panicked` it follows the type switch in `PanicError.Error` (`caller.go`);
for `.errors` it is `Errors.Error` (`errors.go`), see `GoErr.errorsMsg`. -/
def GoErr.msg : GoErr → String
  | .base s => s
  | .panicked v =>
      match v with
      | .str s => s
      | .err m => m
      | .stringer s => s
      | .other r => "panic: " ++ r
  | .errors errs => GoErr.errorsMsg errs

/-- Body of `Errors.Error` (`errors.go`): switch on `len(e.errs)` — empty
gives the fixed placeholder, one element gives that element's message,
otherwise all messages joined with "; ". -/
def GoErr.errorsMsg : List GoErr → String
  | [] => "<empty errors>"
  | [e] => GoErr.msg e
  | e1 :: e2 :: rest => String.intercalate "; " (GoErr.msgList (e1 :: e2 :: rest))

/-- The list of messages of a list of errors (the loop building `s` in
`Errors.Error`). -/
def GoErr.msgList : List GoErr → List String
  | [] => []
  | e :: rest => GoErr.msg e :: GoErr.msgList rest

end

/-- The `Errors` collection of `errors.go`; `errs` is its only field. -/
structure Errors where
  errs : List GoErr
deriving DecidableEq, Repr

/-- The `Errors.Error` method (`errors.go`). -/
def Errors.Error (e : Errors) : String := GoErr.errorsMsg e.errs

/-- The `Errors.Add` method (`errors.go`): a nil error is ignored; another
`*Errors` has its (non-empty) element list appended; anything else is
appended as a single element. -/
def Errors.Add (e : Errors) : Option GoErr → Errors
  | none => e
  | some err =>
      match err with
      | .errors v => if 0 < v.length then ⟨e.errs ++ v⟩ else e
      | _ => ⟨e.errs ++ [err]⟩

/-- The `Errors.First` method (`errors.go`): first element or nil. -/
def Errors.First (e : Errors) : Option GoErr :=
  match e.errs with
  | [] => none
  | x :: _ => some x

/-- The `Errors.Last` method (`errors.go`): last element or nil. -/
def Errors.Last (e : Errors) : Option GoErr :=
  match e.errs.getLast? with
  | none => none
  | some x => some x

/-- The `Errors.Len` method (`errors.go`). -/
def Errors.Len (e : Errors) : Nat := e.errs.length

/-- The `Errors.All` method (`errors.go`). -/
def Errors.All (e : Errors) : List GoErr := e.errs

/-- Outcome of calling a Go function of type `func() error`: either it
returns an error value (possibly nil), or it panics with a payload. -/
inductive CallResult where
  | ret (err : Option GoErr)
  | panicked (v : PanicValue)
deriving DecidableEq, Repr

/-- The `SafeCall` function (`caller.go`): runs the operation; a panic is
recovered into a `*PanicError` carrying the payload, a normal return
passes the operation's own error through unchanged. -/
def SafeCall : CallResult → Option GoErr
  | .ret err => err
  | .panicked v => some (GoErr.panicked v)

/-- The `IsPanicError` function (`caller.go`): true exactly when the error
is non-nil and is a `*PanicError`. -/
def IsPanicError : Option GoErr → Bool
  | some (.panicked _) => true
  | _ => false

/-- The `ErrExited` variable (`runner.go`): `errors.New("runner: exited")`. -/
def ErrExited : GoErr := GoErr.base "runner: exited"

/-- A task handed to the runner (`task.go`). A task is identified by `id`
(object identity in Go) and its behaviour is the outcome of the single
call the runner makes to each of its two methods. -/
structure Task where
  id : Nat
  execute : CallResult
  shutdown : CallResult
deriving DecidableEq, Repr

/-- State of the built-in `runner` (`runner.go`): the tracked task slice
and whether `chanExit` has been closed (it is closed exactly once, via
`onceExit`, at the end of the first `Exit`). The mutex serialises `Run`,
`Exit` and `Exited`, so their effects are modelled as atomic steps. -/
structure runner where
  tasks : List Task
  exited : Bool
deriving DecidableEq, Repr

/-- The `New` constructor (`runner.go`): fresh exit channel, no tasks. -/
def runner.New : runner := ⟨[], false⟩

/-- The `runner.Exited` method (`runner.go`): non-blocking observation of
whether `chanExit` is closed. -/
def runner.Exited (r : runner) : Bool := r.exited

/-- The `runner.Run` method (`runner.go`): on an exited runner return
`ErrExited`; otherwise run `SafeCall(t.Execute)` and only on a nil result
append the task to the tracked slice. Returns the new state and the
returned error. -/
def runner.Run (r : runner) (t : Task) : runner × Option GoErr :=
  if r.Exited then (r, some ErrExited)
  else
    match SafeCall t.execute with
    | some e => (r, some e)
    | none => (⟨r.tasks ++ [t], r.exited⟩, none)

/-- Result of one call to `runner.Exit`: the state afterwards, the
returned error, the tasks whose `Shutdown` was invoked (in invocation
order), and whether this call was the one that closed `chanExit`. -/
structure ExitResult where
  state : runner
  result : Option GoErr
  shutdowns : List Task
  closedSignal : Bool
deriving DecidableEq, Repr

/-- The `runner.Exit` method (`runner.go`). Under the mutex: if no tasks
are tracked, return nil; otherwise walk the tracked slice backwards,
feeding `SafeCall(t.Shutdown)` of every task into an `Errors` aggregate
(`err.Add` never stops the walk), truncate the slice, and return the
aggregate if it holds more than one error, else its first element (nil
when empty). The deferred function closes `chanExit` via `onceExit`
exactly when it was not closed before. -/
def runner.Exit (r : runner) : ExitResult :=
  if r.tasks.isEmpty then
    ⟨⟨r.tasks, true⟩, none, [], !r.exited⟩
  else
    let order := r.tasks.reverse
    let errs := order.foldl (fun e t => Errors.Add e (SafeCall t.shutdown)) ⟨[]⟩
    let res := if 1 < errs.Len then some (GoErr.errors errs.errs) else errs.First
    ⟨⟨[], true⟩, res, order, !r.exited⟩

/-- Which arm of the select in `runner.WaitBy` (`runner.go`) fires: the
caller-supplied channel `c`, or the runner's own `chanExit` (which is
closed only at the end of an `Exit` call). -/
inductive WakeReason where
  | external
  | exitCalled
deriving DecidableEq, Repr

/-- The `runner.WaitBy` method (`runner.go`): when woken by the supplied
channel it calls `Exit` and returns its result; when woken by `chanExit`
it does nothing and returns nil. -/
def runner.WaitBy (r : runner) : WakeReason → ExitResult
  | .external => runner.Exit r
  | .exitCalled => ⟨r, none, [], false⟩

/-- The `runner.Wait` method (`runner.go`): `WaitBy(GetSystemExitChan())`,
the default process-termination source standing for the supplied channel. -/
def runner.Wait (r : runner) (w : WakeReason) : ExitResult := runner.WaitBy r w

/-- Sequential registration of a list of tasks via `runner.Run`, keeping
every returned error (in call order). -/
def runner.RunAll (r : runner) : List Task → runner × List (Option GoErr)
  | [] => (r, [])
  | t :: rest =>
      let p := runner.Run r t
      let q := runner.RunAll p.1 rest
      (q.1, p.2 :: q.2)

/-- A sequence of `n` successive calls to `runner.Exit`, each starting
from the state the previous call left behind (the mutex serialises even
concurrent `Exit` calls into such a sequence). -/
def runner.ExitSeq (r : runner) : Nat → List ExitResult
  | 0 => []
  | n + 1 =>
      let res := runner.Exit r
      res :: runner.ExitSeq res.state n

/-- An entry of the built-in `waitQueue` (`wait_queue.go`): a `Closeable`.
`NewWaiter` enqueues a `closeableWaiter` (plain, `receiptable = false`);
`NewReceiptableWaiter` enqueues `CloseableFunc(w.CloseAndWaitDone)` of a
fresh duplex waiter (`receiptable = true`). `id` models object identity
of the underlying waiter allocation. -/
structure WQEntry where
  id : Nat
  receiptable : Bool
deriving DecidableEq, Repr

/-- State of the built-in `waitQueue` (`wait_queue.go`): the `queue` slice.
`nextId` models the allocator producing fresh waiter objects. -/
structure waitQueue where
  queue : List WQEntry
  nextId : Nat
deriving DecidableEq, Repr

/-- The `NewWaitQueue` constructor (`wait_queue.go`). -/
def waitQueue.NewWaitQueue : waitQueue := ⟨[], 0⟩

/-- The `waitQueue.NewWaiter` method (`wait_queue.go`): allocate a fresh
closeable waiter, append it to the queue, hand out its waiter view. -/
def waitQueue.NewWaiter (wq : waitQueue) : waitQueue × WQEntry :=
  let w : WQEntry := ⟨wq.nextId, false⟩
  (⟨wq.queue ++ [w], wq.nextId + 1⟩, w)

/-- The `waitQueue.NewReceiptableWaiter` method (`wait_queue.go`):
allocate a fresh duplex waiter, append `CloseableFunc(w.CloseAndWaitDone)`
to the queue, hand out its receiptable waiter view. -/
def waitQueue.NewReceiptableWaiter (wq : waitQueue) : waitQueue × WQEntry :=
  let w : WQEntry := ⟨wq.nextId, true⟩
  (⟨wq.queue ++ [w], wq.nextId + 1⟩, w)

/-- The `waitQueue.Len` method (`wait_queue.go`). -/
def waitQueue.Len (wq : waitQueue) : Nat := wq.queue.length

/-- Result of a `Release`/`ReleaseAll` call: the state afterwards, the
returned count, and the entries whose `Close` was invoked, in call order. -/
structure ReleaseResult where
  state : waitQueue
  count : Nat
  closedEntries : List WQEntry
deriving DecidableEq, Repr

/-- The `waitQueue.Release` method (`wait_queue.go`): with `m` entries
queued and `m > 0` and `n > 0`, close `queue[i]` for `i < m` and `i < n`
(the oldest first), keep nothing when `n ≥ m` and otherwise the copy of
`queue[n:]`, and return `m` minus the new length; otherwise do nothing
and return 0. -/
def waitQueue.Release (wq : waitQueue) (n : Nat) : ReleaseResult :=
  let m := wq.queue.length
  if 0 < m ∧ 0 < n then
    let closedEntries := wq.queue.take (min m n)
    let queue := if n ≥ m then [] else wq.queue.drop n
    ⟨⟨queue, wq.nextId⟩, m - queue.length, closedEntries⟩
  else ⟨wq, 0, []⟩

/-- The `waitQueue.ReleaseAll` method (`wait_queue.go`): close every entry
oldest-first, empty the queue, return the old length. -/
def waitQueue.ReleaseAll (wq : waitQueue) : ReleaseResult :=
  let n := wq.queue.length
  if 0 < n then ⟨⟨[], wq.nextId⟩, n, wq.queue⟩ else ⟨wq, n, []⟩

/-- State of the built-in `broadcaster` (`broadcaster.go`): the ordered
`waiters` slice (by id of the underlying duplex waiter), the `closed`
flag, and an allocation counter for fresh duplex waiters. -/
structure broadcaster where
  waiters : List Nat
  closed : Bool
  nextId : Nat
deriving DecidableEq, Repr

/-- The `NewBroadcaster` constructor (`broadcaster.go`). -/
def broadcaster.NewBroadcaster : broadcaster := ⟨[], false, 0⟩

/-- The `broadcaster.NewWaiter` method (`broadcaster.go`): when closed,
return the shared empty waiter (`none`); otherwise allocate a fresh duplex
waiter, append it, and return its waiter view (`some id`). -/
def broadcaster.NewWaiter (b : broadcaster) : broadcaster × Option Nat :=
  if b.closed then (b, none)
  else (⟨b.waiters ++ [b.nextId], b.closed, b.nextId + 1⟩, some b.nextId)

/-- The private `broadcaster.close` method (`broadcaster.go`): when the
slice is non-empty, call `CloseAndWaitDone` on each waiter from the last
to the first, sequentially, then set the slice to nil. Returns the new
state and the handshake trace (waiters in handshake order). -/
def broadcaster.close (b : broadcaster) : broadcaster × List Nat :=
  if 0 < b.waiters.length then (⟨[], b.closed, b.nextId⟩, b.waiters.reverse)
  else (b, [])

/-- The `broadcaster.Broadcast` method (`broadcaster.go`): under the
mutex, just the private `close` walk. -/
def broadcaster.Broadcast (b : broadcaster) : broadcaster × List Nat :=
  broadcaster.close b

/-- The `broadcaster.Close` method (`broadcaster.go`): under the mutex,
set `closed` and do the private `close` walk. -/
def broadcaster.Close (b : broadcaster) : broadcaster × List Nat :=
  broadcaster.close ⟨b.waiters, true, b.nextId⟩

/-- Creation of `n` successive waiters via `broadcaster.NewWaiter`,
keeping every returned value (in creation order). -/
def broadcaster.NewWaiters (b : broadcaster) : Nat → broadcaster × List (Option Nat)
  | 0 => (b, [])
  | n + 1 =>
      let p := broadcaster.NewWaiter b
      let q := broadcaster.NewWaiters p.1 n
      (q.1, p.2 :: q.2)

/-- Actions in the release handshake of a single waiter (`waiter.go`):
the releaser's `Close` (closing the message channel `c`), the releaser's
return from the release call, and the holder's `Done` (closing the
receipt channel `d`). -/
inductive HSAct where
  | close
  | ret
  | done
deriving DecidableEq, Repr

/-- State of a single waiter release (`waiter.go`): the releaser's
position (0 = before `Close`, 1 = after `Close` and before returning,
2 = returned) and the two one-shot channels of the duplex waiter. -/
structure HS where
  pc : Nat
  closed : Bool
  doneFlag : Bool
deriving DecidableEq, Repr

/-- Initial handshake state: fresh waiter, release not yet started. -/
def HS.init : HS := ⟨0, false, false⟩

/-- One interleaving step of the release of a single queue entry
(`waiter.go`, `wait_queue.go`). For a plain `closeableWaiter` the release
call is `Close()` alone, so returning is enabled right after the close;
for a `CloseableFunc(w.CloseAndWaitDone)` entry the release call is
`Close()` followed by `WaitDone()`, so returning is enabled only once the
holder has called `Done` (`<-w.d`). The holder's `Done` is idempotent
(`once.Do`). -/
def hsStep (receiptable : Bool) (s : HS) : HSAct → Option HS
  | .close => if s.pc = 0 then some ⟨1, true, s.doneFlag⟩ else none
  | .ret =>
      if s.pc = 1 && (!receiptable || s.doneFlag) then some ⟨2, s.closed, s.doneFlag⟩
      else none
  | .done => some ⟨s.pc, s.closed, true⟩

/-- Run a whole interleaving of handshake actions from a given state;
`none` when some action is not enabled at its turn. -/
def hsRun (receiptable : Bool) : HS → List HSAct → Option HS
  | s, [] => some s
  | s, a :: rest =>
      match hsStep receiptable s a with
      | none => none
      | some s1 => hsRun receiptable s1 rest

/-- Contribution of one non-nil error to an `Errors` aggregate under
`Errors.Add` (`errors.go`): an `*Errors` value is spliced (its elements
inserted in order), anything else is appended as a single element. -/
def GoErr.splice : GoErr → List GoErr
  | .errors l => l
  | e => [e]

/-!  Helper lemmas shared by the claim theorems.  -/

theorem GoErr.msgList_eq_map : ∀ l : List GoErr, GoErr.msgList l = l.map GoErr.msg
  | [] => by simp [GoErr.msgList]
  | e :: rest => by simp [GoErr.msgList, GoErr.msgList_eq_map rest]

theorem Errors.Add_errs (e : Errors) (o : Option GoErr) :
    (Errors.Add e o).errs = e.errs ++ (match o with | none => [] | some err => GoErr.splice err) := by
  cases o with
  | none => simp [Errors.Add]
  | some err =>
      cases err with
      | base s => simp [Errors.Add, GoErr.splice]
      | panicked v => simp [Errors.Add, GoErr.splice]
      | errors v =>
          cases v with
          | nil => simp [Errors.Add, GoErr.splice]
          | cons x xs => simp [Errors.Add, GoErr.splice]

theorem Errors.foldl_Add_shutdowns : ∀ (ts : List Task) (acc : Errors),
    (ts.foldl (fun e t => Errors.Add e (SafeCall t.shutdown)) acc).errs
      = acc.errs ++ ((ts.map fun t => SafeCall t.shutdown).filterMap id).flatMap GoErr.splice
  | [], acc => by simp
  | t :: rest, acc => by
      have ih := Errors.foldl_Add_shutdowns rest (Errors.Add acc (SafeCall t.shutdown))
      simp only [List.foldl_cons] at ih ⊢
      rw [ih, Errors.Add_errs]
      cases h : SafeCall t.shutdown with
      | none => simp [List.filterMap_cons, h]
      | some err => simp [List.filterMap_cons, h, List.flatMap_cons, List.append_assoc]

/-- CLAIM C7. `SafeCall` of a crashing operation yields an error for which
`IsPanicError` holds; `SafeCall` of a normally returning operation yields
that operation's own error value, unchanged (nil included). -/
theorem safeCall_panic_and_passthrough : ∀ (v : PanicValue) (e : Option GoErr),
    IsPanicError (SafeCall (CallResult.panicked v)) = true ∧
    SafeCall (CallResult.ret e) = e := by
  intro v e
  exact ⟨rfl, rfl⟩

/-- CLAIM C6. On a queue of `m` waiters, `Release n` closes exactly the
`min n m` oldest entries in insertion order, leaves the `m - min n m`
newest in order, and returns `min n m ∈ [0, n]`; `ReleaseAll` closes all
`m` entries oldest-first, empties the queue, and returns `m`. -/
theorem waitQueue_release_fifo : ∀ (wq : waitQueue) (n : Nat),
    (waitQueue.Release wq n).closedEntries = wq.queue.take (min n wq.queue.length) ∧
    (waitQueue.Release wq n).state.queue = wq.queue.drop (min n wq.queue.length) ∧
    (waitQueue.Release wq n).count = min n wq.queue.length ∧
    (waitQueue.Release wq n).count ≤ n ∧
    (waitQueue.ReleaseAll wq).closedEntries = wq.queue ∧
    (waitQueue.ReleaseAll wq).state.queue = [] ∧
    (waitQueue.ReleaseAll wq).count = wq.queue.length := by
  intro wq n
  unfold waitQueue.Release waitQueue.ReleaseAll
  by_cases hm : 0 < wq.queue.length
  · by_cases hn : 0 < n
    · simp only [hm, hn, and_self, if_true]
      by_cases hge : n ≥ wq.queue.length
      · have hmin : min n wq.queue.length = wq.queue.length := by omega
        simp [hge, hmin, Nat.min_comm, List.drop_eq_nil_of_le hge, List.take_of_length_le hge]
      · have hmin : min n wq.queue.length = n := by omega
        simp [hge, hmin, Nat.min_comm, List.length_drop]
        all_goals omega
    · have hn0 : n = 0 := by omega
      simp [hn0, hm]
  · have h0 : wq.queue.length = 0 := by omega
    have hq : wq.queue = [] := List.length_eq_zero.mp h0
    simp [hq]

/-- CLAIM C8. `Errors.Add` ignores nil and splices another aggregate's
elements in order instead of nesting it; the combined message is the
fixed placeholder when empty, the sole element's message for one element,
and all messages joined with "; " in insertion order otherwise; combining
an aggregate of "a", "b" with a bare error "c" gives the flat sequence
["a", "b", "c"] with message "a; b; c". -/
theorem errors_add_flatten_message : ∀ (a : Errors) (v : List GoErr) (x : GoErr) (l : List GoErr),
    Errors.Add a none = a ∧
    Errors.Add a (some (GoErr.errors v)) = ⟨a.errs ++ v⟩ ∧
    Errors.Error ⟨[]⟩ = "<empty errors>" ∧
    Errors.Error ⟨[x]⟩ = GoErr.msg x ∧
    (2 ≤ l.length → Errors.Error ⟨l⟩ = String.intercalate "; " (l.map GoErr.msg)) ∧
    (Errors.Add (Errors.Add ⟨[]⟩ (some (GoErr.errors [GoErr.base "a", GoErr.base "b"])))
        (some (GoErr.base "c"))).errs = [GoErr.base "a", GoErr.base "b", GoErr.base "c"] ∧
    Errors.Error ⟨[GoErr.base "a", GoErr.base "b", GoErr.base "c"]⟩ = "a; b; c" := by
  intro a v x l
  refine ⟨rfl, ?_, ?_, ?_, ?_, ?_, ?_⟩
  · have h := Errors.Add_errs a (some (GoErr.errors v))
    simp only [GoErr.splice] at h
    cases hAdd : Errors.Add a (some (GoErr.errors v)) with
    | mk errs => rw [hAdd] at h; simp_all
  · simp [Errors.Error, GoErr.errorsMsg]
  · simp [Errors.Error, GoErr.errorsMsg]
  · intro hl
    match l with
    | e1 :: e2 :: rest =>
        simp [Errors.Error, GoErr.errorsMsg, GoErr.msgList_eq_map]
  · simp [Errors.Add, GoErr.splice]
  · simp only [Errors.Error, GoErr.errorsMsg, GoErr.msgList, GoErr.msg]
    rfl

/-- CLAIM C4, counterexample. A runner tracking exactly one task whose
single `Shutdown` call fails with a non-nil error (an empty `*Errors`
aggregate) returns nil from `Exit`, not that failing error: the walk added
the failure to the aggregate by splicing its zero elements, so `Exit`
reports no failure at all. -/
theorem runner_exit_single_failure_cex :
    SafeCall (Task.mk 0 (CallResult.ret none) (CallResult.ret (some (GoErr.errors []))) : Task).shutdown
        = some (GoErr.errors []) ∧
    (runner.Exit ⟨[⟨0, CallResult.ret none, CallResult.ret (some (GoErr.errors []))⟩], false⟩).shutdowns
        = [⟨0, CallResult.ret none, CallResult.ret (some (GoErr.errors []))⟩] ∧
    (runner.Exit ⟨[⟨0, CallResult.ret none, CallResult.ret (some (GoErr.errors []))⟩], false⟩).result
        = none ∧
    (runner.Exit ⟨[⟨0, CallResult.ret none, CallResult.ret (some (GoErr.errors []))⟩], false⟩).result
        ≠ some (GoErr.errors []) := by
  refine ⟨rfl, rfl, rfl, ?_⟩
  decide

/-- CLAIM C4, amended. `Exit` collects the non-nil results of the reverse
shutdown walk after splicing (each `*Errors` failure contributes its
elements, in order — an empty aggregate contributes nothing); it returns
nil when the collected list is empty, its sole element when it has exactly
one element, and the aggregate of the whole collected list, in encounter
order, when it has two or more. -/
theorem runner_exit_result_flattened : ∀ (r : runner),
    (runner.Exit r).result =
      match ((r.tasks.reverse.map fun t => SafeCall t.shutdown).filterMap id).flatMap GoErr.splice with
      | [] => none
      | [e] => some e
      | e1 :: e2 :: rest => some (GoErr.errors (e1 :: e2 :: rest)) := by
  intro r
  unfold runner.Exit
  by_cases hemp : r.tasks.isEmpty
  · have h : r.tasks = [] := List.isEmpty_iff.mp hemp
    simp [h]
  · simp only [hemp, if_false, Bool.false_eq_true]
    have hfold := Errors.foldl_Add_shutdowns r.tasks.reverse ⟨[]⟩
    simp only [List.nil_append, List.foldl_reverse] at hfold
    cases hcol : ((r.tasks.reverse.map fun t => SafeCall t.shutdown).filterMap id).flatMap GoErr.splice with
    | nil =>
        simp only [hcol] at hfold
        simp [Errors.Len, Errors.First, hfold]
    | cons e1 tl =>
        cases tl with
        | nil =>
            simp only [hcol] at hfold
            simp [Errors.Len, Errors.First, hfold]
        | cons e2 rest =>
            simp only [hcol] at hfold
            simp [Errors.Len, Errors.First, hfold]

theorem runner.RunAll_ok : ∀ (ts : List Task) (r : runner),
    r.exited = false → (∀ t ∈ ts, SafeCall t.execute = none) →
    runner.RunAll r ts = (⟨r.tasks ++ ts, false⟩, List.replicate ts.length none)
  | [], r => by intro hex _; simp [runner.RunAll, ← hex]
  | t :: rest, r => by
      intro hex hok
      have hexec : SafeCall t.execute = none := hok t (by simp)
      have hrun : runner.Run r t = (⟨r.tasks ++ [t], r.exited⟩, none) := by
        simp [runner.Run, runner.Exited, hex, hexec]
      have ih := runner.RunAll_ok rest ⟨r.tasks ++ [t], r.exited⟩ hex
        (fun u hu => hok u (by simp [hu]))
      rw [hex] at hrun ih
      simp [runner.RunAll, hrun, ih, List.append_assoc, List.replicate_succ]

theorem runner.Exit_state : ∀ r : runner, (runner.Exit r).state = ⟨[], true⟩ := by
  intro r
  unfold runner.Exit
  by_cases hemp : r.tasks.isEmpty
  · have h : r.tasks = [] := List.isEmpty_iff.mp hemp
    simp [hemp, h]
  · simp [hemp]

theorem runner.Exit_shutdowns : ∀ r : runner, (runner.Exit r).shutdowns = r.tasks.reverse := by
  intro r
  unfold runner.Exit
  by_cases hemp : r.tasks.isEmpty
  · have h : r.tasks = [] := List.isEmpty_iff.mp hemp
    simp [hemp, h]
  · simp [hemp]

theorem runner.Exit_exited_empty :
    runner.Exit ⟨[], true⟩ = ⟨⟨[], true⟩, none, [], false⟩ := by
  decide

theorem runner.ExitSeq_exited_empty : ∀ n : Nat,
    runner.ExitSeq ⟨[], true⟩ n = List.replicate n ⟨⟨[], true⟩, none, [], false⟩
  | 0 => rfl
  | n + 1 => by
      simp only [runner.ExitSeq, runner.Exit_exited_empty, List.replicate_succ]
      exact congrArg _ (runner.ExitSeq_exited_empty n)

/-- CLAIM C1. Registering tasks T1..Tn (each `Execute` succeeding) on a
fresh runner and then calling `Exit` for the first time invokes the
`Shutdown` of exactly the tracked tasks, in exact reverse registration
order Tn..T1 — each exactly once when the tasks are distinct — with no
assumption on the shutdown outcomes: a task whose `Shutdown` fails or
panics never prevents the `Shutdown` of an earlier-registered task. -/
theorem runner_exit_reverse_shutdown_order : ∀ (ts : List Task),
    (∀ t ∈ ts, SafeCall t.execute = none) →
    (runner.RunAll runner.New ts).2 = List.replicate ts.length none ∧
    (runner.RunAll runner.New ts).1.tasks = ts ∧
    (runner.Exit (runner.RunAll runner.New ts).1).shutdowns = ts.reverse ∧
    (ts.Nodup → ∀ t ∈ ts, ((runner.Exit (runner.RunAll runner.New ts).1).shutdowns).count t = 1) := by
  intro ts hok
  have hall := runner.RunAll_ok ts runner.New rfl hok
  have hstate : (runner.RunAll runner.New ts).1 = ⟨ts, false⟩ := by
    rw [hall]
    simp [runner.New]
  refine ⟨by simp [hall], by simp [hstate], ?_, ?_⟩
  · rw [hstate, runner.Exit_shutdowns]
  · intro hnd t ht
    rw [hstate, runner.Exit_shutdowns]
    simp only [List.count_reverse]
    exact List.count_eq_one_of_mem hnd ht

/-- CLAIM C1, witness: three distinct tasks, the second's shutdown failing
and the third's panicking; the shutdown walk is still T3, T2, T1, each
exactly once. -/
theorem runner_exit_reverse_shutdown_order_witness :
    (∀ t ∈ ([⟨1, CallResult.ret none, CallResult.ret none⟩,
              ⟨2, CallResult.ret none, CallResult.ret (some (GoErr.base "shutdown failed"))⟩,
              ⟨3, CallResult.ret none, CallResult.panicked (PanicValue.str "boom")⟩] : List Task),
        SafeCall t.execute = none) ∧
    (runner.Exit (runner.RunAll runner.New
        [⟨1, CallResult.ret none, CallResult.ret none⟩,
         ⟨2, CallResult.ret none, CallResult.ret (some (GoErr.base "shutdown failed"))⟩,
         ⟨3, CallResult.ret none, CallResult.panicked (PanicValue.str "boom")⟩]).1).shutdowns
      = [⟨3, CallResult.ret none, CallResult.panicked (PanicValue.str "boom")⟩,
         ⟨2, CallResult.ret none, CallResult.ret (some (GoErr.base "shutdown failed"))⟩,
         ⟨1, CallResult.ret none, CallResult.ret none⟩] := by
  refine ⟨by decide, ?_⟩
  have h := runner_exit_reverse_shutdown_order
    [⟨1, CallResult.ret none, CallResult.ret none⟩,
     ⟨2, CallResult.ret none, CallResult.ret (some (GoErr.base "shutdown failed"))⟩,
     ⟨3, CallResult.ret none, CallResult.panicked (PanicValue.str "boom")⟩] (by decide)
  rw [h.2.2.1]
  rfl

/-- CLAIM C3. Runner exit is idempotent: after any first `Exit`, every
further `Exit` returns nil, invokes no task's `Shutdown`, and does not
close the exit signal again; across any serialised sequence of `Exit`
calls the exit signal is closed at most once. -/
theorem runner_exit_idempotent : ∀ (r : runner) (n : Nat),
    runner.Exit (runner.Exit r).state = ⟨⟨[], true⟩, none, [], false⟩ ∧
    (runner.ExitSeq r (n + 1)).tail = List.replicate n ⟨⟨[], true⟩, none, [], false⟩ ∧
    (runner.ExitSeq r n).countP (fun res => res.closedSignal) ≤ 1 := by
  intro r n
  refine ⟨by rw [runner.Exit_state]; exact runner.Exit_exited_empty, ?_, ?_⟩
  · simp only [runner.ExitSeq, List.tail_cons, runner.Exit_state]
    exact runner.ExitSeq_exited_empty n
  · cases n with
    | zero => simp [runner.ExitSeq]
    | succ m =>
        simp only [runner.ExitSeq, runner.Exit_state, runner.ExitSeq_exited_empty m,
          List.countP_cons, List.countP_replicate]
        split <;> split <;> simp_all

/-- CLAIM C5. On a live runner, a task whose `Execute` returns a non-nil
error or panics has that failure (a panic as a `PanicError`) returned by
`Run`, is not added to the tracked slice, and (unless it was already
tracked) its `Shutdown` is not invoked by a later `Exit`. -/
theorem runner_run_failure_not_tracked : ∀ (r : runner) (t : Task) (e : GoErr),
    r.exited = false →
    SafeCall t.execute = some e →
    runner.Run r t = (r, some e) ∧
    (∀ v, t.execute = CallResult.panicked v → e = GoErr.panicked v) ∧
    (t ∉ r.tasks → t ∉ (runner.Exit (runner.Run r t).1).shutdowns) := by
  intro r t e hex hfail
  have hrun : runner.Run r t = (r, some e) := by
    simp [runner.Run, runner.Exited, hex, hfail]
  refine ⟨hrun, ?_, ?_⟩
  · intro v hv
    rw [hv] at hfail
    simpa [SafeCall] using hfail.symm
  · intro hmem
    rw [hrun, runner.Exit_shutdowns]
    simpa [List.mem_reverse] using hmem

/-- CLAIM C5, witness: a fresh runner, one task failing with an error and
one panicking; both are rejected and neither is shut down by `Exit`. -/
theorem runner_run_failure_not_tracked_witness :
    (runner.New.exited = false ∧
      SafeCall (Task.mk 7 (CallResult.ret (some (GoErr.base "exec failed"))) (CallResult.ret none)).execute
        = some (GoErr.base "exec failed")) ∧
    runner.Run runner.New ⟨7, CallResult.ret (some (GoErr.base "exec failed")), CallResult.ret none⟩
      = (runner.New, some (GoErr.base "exec failed")) ∧
    (⟨7, CallResult.ret (some (GoErr.base "exec failed")), CallResult.ret none⟩ : Task) ∉
      (runner.Exit (runner.Run runner.New
        ⟨7, CallResult.ret (some (GoErr.base "exec failed")), CallResult.ret none⟩).1).shutdowns := by
  have h := runner_run_failure_not_tracked runner.New
    ⟨7, CallResult.ret (some (GoErr.base "exec failed")), CallResult.ret none⟩
    (GoErr.base "exec failed") rfl rfl
  exact ⟨⟨rfl, rfl⟩, h.1, h.2.2 (by decide)⟩

/-- CLAIM C9. `WaitBy`, when woken by the supplied cancellation channel,
itself calls `Exit` and returns its result; the runner's own exit channel
is closed only at the end of an `Exit` call, which always leaves an exited
runner with no tracked tasks; and when `WaitBy` is woken because `Exit`
was already called it returns nil — exactly the result of the idempotent
`Exit` on that state — with no task shut down again. -/
theorem runner_waitBy_exit : ∀ (r r0 : runner),
    runner.WaitBy r WakeReason.external = runner.Exit r ∧
    ((runner.Exit r0).state.exited = true ∧ (runner.Exit r0).state.tasks = []) ∧
    (r.exited = true → r.tasks = [] →
      runner.WaitBy r WakeReason.exitCalled = ⟨r, none, [], false⟩ ∧
      (runner.WaitBy r WakeReason.exitCalled).result = (runner.Exit r).result ∧
      (runner.Exit r).result = none ∧
      (runner.Exit r).shutdowns = []) := by
  intro r r0
  refine ⟨rfl, by rw [runner.Exit_state]; exact ⟨rfl, rfl⟩, ?_⟩
  intro hex htasks
  have hr : r = ⟨[], true⟩ := by
    cases r
    simp_all
  rw [hr]
  refine ⟨rfl, ?_, ?_, ?_⟩
  · rw [runner.Exit_exited_empty]
    rfl
  · rw [runner.Exit_exited_empty]
  · rw [runner.Exit_exited_empty]


/-- CLAIM C9, witness: on the post-`Exit` state (no tasks, exited), being
woken because `Exit` was already called returns nil, the same as the
idempotent `Exit`, with no shutdown. -/
theorem runner_waitBy_exit_witness :
    ((⟨[], true⟩ : runner).exited = true ∧ (⟨[], true⟩ : runner).tasks = []) ∧
    runner.WaitBy ⟨[], true⟩ WakeReason.exitCalled = ⟨⟨[], true⟩, none, [], false⟩ ∧
    (runner.Exit ⟨[], true⟩).result = none := by
  have h := runner_waitBy_exit ⟨[], true⟩ runner.New
  have h2 := h.2.2 rfl rfl
  exact ⟨⟨rfl, rfl⟩, h2.1, h2.2.2.1⟩

theorem broadcaster.close_eq : ∀ b : broadcaster,
    broadcaster.close b = (⟨[], b.closed, b.nextId⟩, b.waiters.reverse) := by
  intro b
  cases b with
  | mk w c i =>
      cases w with
      | nil => simp [broadcaster.close]
      | cons x xs => simp [broadcaster.close]

theorem broadcaster.NewWaiters_open : ∀ (n : Nat) (b : broadcaster), b.closed = false →
    broadcaster.NewWaiters b n =
      (⟨b.waiters ++ List.range' b.nextId n, false, b.nextId + n⟩,
       (List.range' b.nextId n).map some)
  | 0, b => by
      intro h
      cases b
      simp_all [broadcaster.NewWaiters]
  | n + 1, b => by
      intro h
      have hw : broadcaster.NewWaiter b
          = (⟨b.waiters ++ [b.nextId], b.closed, b.nextId + 1⟩, some b.nextId) := by
        simp [broadcaster.NewWaiter, h]
      have ih := broadcaster.NewWaiters_open n ⟨b.waiters ++ [b.nextId], b.closed, b.nextId + 1⟩ h
      have harith : b.nextId + 1 + n = b.nextId + (n + 1) := by omega
      simp only [broadcaster.NewWaiters, hw, ih, List.range'_succ b.nextId n 1, List.map_cons,
        List.append_assoc, List.singleton_append, harith]

/-- CLAIM C2. On an open broadcaster, creating n waiters registers them in
creation order; `Broadcast` then performs the `CloseAndWaitDone` handshakes
strictly sequentially in exact reverse creation order (the handshake trace
is the reverse of the registration order), and afterwards the waiter set
is empty while the broadcaster is still open, so a subsequent `NewWaiter`
again registers a fresh waiter. -/
theorem broadcaster_broadcast_reverse : ∀ (b : broadcaster) (n : Nat),
    b.closed = false →
    (broadcaster.NewWaiters b n).1.waiters = b.waiters ++ List.range' b.nextId n ∧
    (broadcaster.NewWaiters b n).2 = (List.range' b.nextId n).map some ∧
    (broadcaster.Broadcast (broadcaster.NewWaiters b n).1).2
        = (b.waiters ++ List.range' b.nextId n).reverse ∧
    (broadcaster.Broadcast (broadcaster.NewWaiters b n).1).1.waiters = [] ∧
    (broadcaster.Broadcast (broadcaster.NewWaiters b n).1).1.closed = false ∧
    (broadcaster.NewWaiter (broadcaster.Broadcast (broadcaster.NewWaiters b n).1).1).2
        = some (broadcaster.Broadcast (broadcaster.NewWaiters b n).1).1.nextId ∧
    (broadcaster.NewWaiter (broadcaster.Broadcast (broadcaster.NewWaiters b n).1).1).1.waiters
        = [(broadcaster.Broadcast (broadcaster.NewWaiters b n).1).1.nextId] := by
  intro b n h
  have hall := broadcaster.NewWaiters_open n b h
  rw [hall]
  simp [broadcaster.Broadcast, broadcaster.close_eq, broadcaster.NewWaiter]

/-- CLAIM C2, witness: two waiters created on a fresh broadcaster are
handshaked in reverse creation order, and a waiter created after the
broadcast is registered again. -/
theorem broadcaster_broadcast_reverse_witness :
    broadcaster.NewBroadcaster.closed = false ∧
    (broadcaster.Broadcast (broadcaster.NewWaiters broadcaster.NewBroadcaster 2).1).2 = [1, 0] ∧
    (broadcaster.NewWaiter (broadcaster.Broadcast
        (broadcaster.NewWaiters broadcaster.NewBroadcaster 2).1).1).2 = some 2 := by
  have h := broadcaster_broadcast_reverse broadcaster.NewBroadcaster 2 rfl
  refine ⟨rfl, ?_, ?_⟩
  · rw [h.2.2.1]
    rfl
  · rw [h.2.2.2.2.2.1]
    rfl

theorem hsStep_doneFlag_mono : ∀ (b : Bool) (s : HS) (a : HSAct) (s1 : HS),
    hsStep b s a = some s1 → s.doneFlag = true → s1.doneFlag = true := by
  intro b s a s1 h hd
  cases a <;> simp only [hsStep] at h
  · split at h
    · cases h; exact hd
    · exact Option.noConfusion h
  · split at h
    · cases h; exact hd
    · exact Option.noConfusion h
  · cases h; rfl

theorem hsStep_doneFlag_src : ∀ (b : Bool) (s : HS) (a : HSAct) (s1 : HS),
    hsStep b s a = some s1 → s1.doneFlag = true → s.doneFlag = true ∨ a = HSAct.done := by
  intro b s a s1 h hd
  cases a <;> simp only [hsStep] at h
  · split at h
    · cases h; exact Or.inl hd
    · exact Option.noConfusion h
  · split at h
    · cases h; exact Or.inl hd
    · exact Option.noConfusion h
  · exact Or.inr rfl

theorem hsStep_pc_le : ∀ (b : Bool) (s : HS) (a : HSAct) (s1 : HS),
    hsStep b s a = some s1 → s.pc ≤ 2 → s1.pc ≤ 2 := by
  intro b s a s1 h hp
  cases a <;> simp only [hsStep] at h
  · split at h
    · cases h; exact Nat.le_succ 1
    · exact Option.noConfusion h
  · split at h
    · cases h; exact Nat.le_refl 2
    · exact Option.noConfusion h
  · cases h; exact hp

theorem hsStep_ret_done : ∀ (s : HS) (s1 : HS),
    hsStep true s HSAct.ret = some s1 → s1.doneFlag = true := by
  intro s s1 h
  simp only [hsStep] at h
  split at h
  · rename_i hg
    simp only [Bool.not_true, Bool.false_or, Bool.and_eq_true, decide_eq_true_eq] at hg
    cases h
    exact hg.2
  · exact Option.noConfusion h

theorem hsStep_pc2_src : ∀ (s : HS) (a : HSAct) (s1 : HS),
    hsStep true s a = some s1 → s1.pc = 2 → s.pc = 2 ∨ s1.doneFlag = true := by
  intro s a s1 h hp
  cases a
  · simp only [hsStep] at h
    split at h
    · cases h; simp at hp
    · exact Option.noConfusion h
  · exact Or.inr (hsStep_ret_done s s1 h)
  · simp only [hsStep] at h
    cases h
    exact Or.inl hp

theorem hsRun_doneFlag_mono : ∀ (b : Bool) (acts : List HSAct) (s0 s : HS),
    hsRun b s0 acts = some s → s0.doneFlag = true → s.doneFlag = true
  | b, [], s0, s => by
      intro h hd
      simp only [hsRun, Option.some.injEq] at h
      rw [← h]
      exact hd
  | b, a :: rest, s0, s => by
      intro h hd
      cases hstep : hsStep b s0 a with
      | none => simp [hsRun, hstep] at h
      | some s1 =>
          simp only [hsRun, hstep] at h
          exact hsRun_doneFlag_mono b rest s1 s h (hsStep_doneFlag_mono b s0 a s1 hstep hd)

theorem hsRun_done_mem : ∀ (b : Bool) (acts : List HSAct) (s0 s : HS),
    hsRun b s0 acts = some s → s.doneFlag = true →
    s0.doneFlag = true ∨ HSAct.done ∈ acts
  | b, [], s0, s => by
      intro h hd
      simp only [hsRun, Option.some.injEq] at h
      rw [← h] at hd
      exact Or.inl hd
  | b, a :: rest, s0, s => by
      intro h hd
      cases hstep : hsStep b s0 a with
      | none => simp [hsRun, hstep] at h
      | some s1 =>
          simp only [hsRun, hstep] at h
          rcases hsRun_done_mem b rest s1 s h hd with h1 | h1
          · rcases hsStep_doneFlag_src b s0 a s1 hstep h1 with h2 | h2
            · exact Or.inl h2
            · exact Or.inr (by simp [h2])
          · exact Or.inr (by simp [h1])

theorem hsRun_pc_le : ∀ (b : Bool) (acts : List HSAct) (s0 s : HS),
    hsRun b s0 acts = some s → s0.pc ≤ 2 → s.pc ≤ 2
  | b, [], s0, s => by
      intro h hp
      simp only [hsRun, Option.some.injEq] at h
      rw [← h]
      exact hp
  | b, a :: rest, s0, s => by
      intro h hp
      cases hstep : hsStep b s0 a with
      | none => simp [hsRun, hstep] at h
      | some s1 =>
          simp only [hsRun, hstep] at h
          exact hsRun_pc_le b rest s1 s h (hsStep_pc_le b s0 a s1 hstep hp)

theorem hsRun_pc2 : ∀ (acts : List HSAct) (s0 s : HS),
    hsRun true s0 acts = some s → s.pc = 2 → s0.pc = 2 ∨ s.doneFlag = true
  | [], s0, s => by
      intro h hp
      simp only [hsRun, Option.some.injEq] at h
      rw [← h] at hp
      exact Or.inl hp
  | a :: rest, s0, s => by
      intro h hp
      cases hstep : hsStep true s0 a with
      | none => simp [hsRun, hstep] at h
      | some s1 =>
          simp only [hsRun, hstep] at h
          rcases hsRun_pc2 rest s1 s h hp with h1 | h1
          · rcases hsStep_pc2_src s0 a s1 hstep h1 with h2 | h2
            · exact Or.inl h2
            · exact Or.inr (hsRun_doneFlag_mono true rest s1 s h h2)
          · exact Or.inr h1

/-- CLAIM C10. A waiter from `NewReceiptableWaiter` is queued as the
`CloseAndWaitDone` handshake of a duplex waiter while one from `NewWaiter`
is queued as a plain close: in every interleaving, the release of a
receiptable entry cannot return before the holder's `Done` has been
performed (so releasing can block indefinitely — after `Close` alone the
releaser has no enabled step until `Done`), whereas the release of a plain
entry always has an enabled step until it returns and completes without
any holder action. -/
theorem waitQueue_receiptable_handshake : ∀ (wq : waitQueue) (acts : List HSAct) (s : HS),
    ((waitQueue.NewReceiptableWaiter wq).2.receiptable = true ∧
      (waitQueue.NewWaiter wq).2.receiptable = false ∧
      (waitQueue.NewReceiptableWaiter wq).1.queue = wq.queue ++ [⟨wq.nextId, true⟩] ∧
      (waitQueue.NewWaiter wq).1.queue = wq.queue ++ [⟨wq.nextId, false⟩]) ∧
    (hsRun true HS.init acts = some s → s.pc = 2 → HSAct.done ∈ acts) ∧
    (hsRun false HS.init acts = some s → s.pc ≠ 2 →
      (hsStep false s HSAct.close ≠ none ∨ hsStep false s HSAct.ret ≠ none)) ∧
    hsRun false HS.init [HSAct.close, HSAct.ret] = some ⟨2, true, false⟩ ∧
    (hsRun true HS.init [HSAct.close] = some ⟨1, true, false⟩ ∧
      hsStep true ⟨1, true, false⟩ HSAct.close = none ∧
      hsStep true ⟨1, true, false⟩ HSAct.ret = none ∧
      hsRun true HS.init [HSAct.close, HSAct.done, HSAct.ret] = some ⟨2, true, true⟩) := by
  intro wq acts s
  refine ⟨⟨rfl, rfl, rfl, rfl⟩, ?_, ?_, rfl, rfl, rfl, rfl, rfl⟩
  · intro hrun hpc
    have hdone : s.doneFlag = true := by
      rcases hsRun_pc2 acts HS.init s hrun hpc with h1 | h1
      · exact absurd h1 (by decide)
      · exact h1
    rcases hsRun_done_mem true acts HS.init s hrun hdone with h1 | h1
    · exact absurd h1 (by decide)
    · exact h1
  · intro hrun hpc
    have hle : s.pc ≤ 2 := hsRun_pc_le false acts HS.init s hrun (by decide)
    rcases Nat.lt_or_ge s.pc 1 with h1 | h1
    · left
      have h0 : s.pc = 0 := by omega
      simp [hsStep, h0]
    · right
      have h0 : s.pc = 1 := by omega
      simp [hsStep, h0]

/-- CLAIM C10, witness: in the interleaving close, done, ret of a
receiptable entry's release the releaser returns, and that interleaving
contains the holder's `Done`; after close alone the releaser is stuck. -/
theorem waitQueue_receiptable_handshake_witness :
    hsRun true HS.init [HSAct.close, HSAct.done, HSAct.ret] = some ⟨2, true, true⟩ ∧
    (⟨2, true, true⟩ : HS).pc = 2 ∧
    HSAct.done ∈ [HSAct.close, HSAct.done, HSAct.ret] ∧
    hsRun false HS.init [HSAct.close, HSAct.ret] = some ⟨2, true, false⟩ ∧
    (⟨2, true, false⟩ : HS).pc ≠ 1 := by
  refine ⟨rfl, rfl, ?_, rfl, by decide⟩
  exact (waitQueue_receiptable_handshake waitQueue.NewWaitQueue
    [HSAct.close, HSAct.done, HSAct.ret] ⟨2, true, true⟩).2.1 rfl rfl

/-- CLAIM C8, witness: the joined-message clause applied to a concrete
two-element aggregate. -/
theorem errors_add_flatten_message_witness :
    2 ≤ ([GoErr.base "x", GoErr.base "y"] : List GoErr).length ∧
    Errors.Error ⟨[GoErr.base "x", GoErr.base "y"]⟩
      = String.intercalate "; " ([GoErr.base "x", GoErr.base "y"].map GoErr.msg) := by
  refine ⟨by decide, ?_⟩
  exact (errors_add_flatten_message ⟨[]⟩ [] (GoErr.base "x")
    [GoErr.base "x", GoErr.base "y"]).2.2.2.2.1 (by decide)

end ZkitsRunner
